import Mathlib

/-!
Verification of the comment-association and tag-reconciliation engine of the
roku-jsdocs-plugin repository (src/convert-brighterscript-docs.js).

JavaScript strings are embedded as lists of characters (`JStr`), statement
trees as inductive types, and every regular expression of the source file is
embedded as an explicit scanning function mirroring the JS regex semantics
(leftmost match, greedy quantifiers, backtracking where it matters).  The
module-global mutable state (`namespacesCreated`, `parserLines`) is threaded
explicitly through the processing functions.
-/

set_option maxRecDepth 10000

/-- A JavaScript string, embedded as its character sequence. -/
abbrev JStr := List Char

/-- Literal helper: a Lean string literal viewed as a `JStr`. -/
def jstr (s : String) : JStr := s.toList

/-- Left brace character (written numerically). -/
def lbrace : Char := Char.ofNat 123

/-- Right brace character (written numerically). -/
def rbrace : Char := Char.ofNat 125

/-- JS `\s` whitespace class (the characters relevant to this plugin). -/
def isJsSpace (c : Char) : Bool :=
  c = ' ' || c = '\t' || c = '\n' || c = '\r' || c = Char.ofNat 11 || c = Char.ofNat 12

/-- Drop the leading run of whitespace (the effect of a greedy `\s*`). -/
def dropJsSpace : JStr → JStr
  | [] => []
  | c :: r => if isJsSpace c then dropJsSpace r else c :: r

/-- Length of the leading whitespace run (how much a greedy `\s*` consumes). -/
def countLeadingJsSpace : JStr → Nat
  | [] => 0
  | c :: r => if isJsSpace c then countLeadingJsSpace r + 1 else 0

/-- JS `String.prototype.trim`: drop whitespace at both ends. -/
def jsTrim (s : JStr) : JStr :=
  ((dropJsSpace s).reverse |> dropJsSpace).reverse

/-- ASCII lowering of one character, as JS `toLowerCase` acts on ASCII. -/
def charToLower (c : Char) : Char :=
  if 'A' ≤ c ∧ c ≤ 'Z' then Char.ofNat (c.toNat + 32) else c

/-- JS `String.prototype.toLowerCase` (ASCII fragment). -/
def toLowerJs (s : JStr) : JStr := s.map charToLower

/-- Whether `pat` occurs at the very start of `s`. -/
def strStartsWith : JStr → JStr → Bool
  | _, [] => true
  | [], _ :: _ => false
  | c :: s, p :: ps => c = p && strStartsWith s ps

/-- Whether `pat` occurs somewhere in `hay` (JS unanchored regex search for a literal). -/
def containsSub (hay pat : JStr) : Bool :=
  match hay with
  | [] => pat.isEmpty
  | _ :: t => strStartsWith hay pat || containsSub t pat

/-- Split at the first occurrence of the literal `pat`: returns the part before
the occurrence and the part after it.  Mirrors a leftmost regex literal match. -/
def splitFirstSub (hay pat : JStr) : Option (JStr × JStr) :=
  match hay with
  | [] => if pat.isEmpty then some ([], []) else none
  | c :: t =>
    if strStartsWith hay pat then some ([], hay.drop pat.length)
    else (splitFirstSub t pat).map fun p => (c :: p.1, p.2)

/-- Split at the first occurrence of character `c`: (before, after), both excluding `c`. -/
def splitFirstChar (s : JStr) (c : Char) : Option (JStr × JStr) :=
  match s with
  | [] => none
  | d :: t =>
    if d = c then some ([], t)
    else (splitFirstChar t c).map fun p => (d :: p.1, p.2)

/-- Split at the last occurrence of character `c`: (before, after), both excluding `c`.
Mirrors a greedy `.*c` consuming up to the final occurrence. -/
def splitLastChar (s : JStr) (c : Char) : Option (JStr × JStr) :=
  match s with
  | [] => none
  | d :: t =>
    match splitLastChar t c with
    | some p => some (d :: p.1, p.2)
    | none => if d = c then some ([], t) else none

/-- Number of positions in `hay` at which the literal `pat` occurs (used only
to count tag occurrences in rendered output; the patterns counted never
overlap themselves). -/
def countSub (hay pat : JStr) : Nat :=
  match hay with
  | [] => 0
  | _ :: t => (if strStartsWith hay pat then 1 else 0) + countSub t pat

/-- JS word character: `\w` is `[A-Za-z0-9_]`. -/
def isWordChar (c : Char) : Bool :=
  ('a' ≤ c && c ≤ 'z') || ('A' ≤ c && c ≤ 'Z') || ('0' ≤ c && c ≤ '9') || c = '_'

/-- The leading run matched by a greedy `\w+` (empty when it fails). -/
def takeWhileWord (s : JStr) : JStr := s.takeWhile isWordChar

/-- Split a string on a separator character (JS `String.prototype.split`). -/
def splitOnChar (c : Char) (s : JStr) : List JStr :=
  match s with
  | [] => [[]]
  | d :: t =>
    let rest := splitOnChar c t
    if d = c then [] :: rest
    else match rest with
      | [] => [[d]]
      | r :: rs => (d :: r) :: rs

/-- JS `Array.prototype.join(sep)` for a list of strings. -/
def joinSep (sep : JStr) (ls : List JStr) : JStr :=
  match ls with
  | [] => []
  | [l] => l
  | l :: ls => l ++ sep ++ joinSep sep ls

/-- Join output lines with newlines, as `output.join('\n')` in the source. -/
def joinNl (ls : List JStr) : JStr := joinSep (jstr "\n") ls

/-- JS `String.prototype.slice(start, end)` (character range, end exclusive). -/
def jsSlice (s : JStr) (start stop : Nat) : JStr :=
  (s.drop start).take (stop - start)

/-!  ## Regex embeddings

The source file defines five regular expressions:

    jsCommentStartRegex      = /^[\s]*(?:\/\*+)?[\s]*(.*)/g
    bsMeaningfulCommentRegex = /^[\s]*(?:'|REM)[\s]*\**[\s]*(.*)/g
    paramRegex   = /@param\s+(?:[lb]([^-rb-]*)[rb])?\s+(?:\[(\w+).*\]|(\w+))[\s-\s|\s]*(.*)/
    returnRegex  = /@returns?\s*([lb](?:[^-rb-]*)[rb])?\s*(.*)/
    extendsRegex = /@extends/

(writing [lb]/[rb] above for the literal brace characters).  Each is embedded
below as a scanning function with JS leftmost-match, greedy, backtracking
semantics on a single line.  -/

/-- Embeds `returnRegex = /@returns?\s*( [^rb]* in braces )?\s*(.*)/`.
Returns `(group1, group2)` of the leftmost match, where `group1` is the
optional brace clause *including the braces* (the capturing parenthesis in the
source encloses the braces) and `group2` is the greedy rest of the line.
`none` when the line has no `@return` occurrence. -/
def matchReturn (line : JStr) : Option (Option JStr × JStr) :=
  (splitFirstSub line (jstr "@return")).map fun p =>
    let rest0 := p.2
    -- `s?` greedily consumes a following 's'
    let rest1 := match rest0 with
      | 's' :: t => t
      | _ => rest0
    let rest2 := dropJsSpace rest1
    match rest2 with
    | c :: afterBrace =>
      if c = lbrace then
        match splitFirstChar afterBrace rbrace with
        | some q => (some (lbrace :: q.1 ++ [rbrace]), dropJsSpace q.2)
        | none => (none, rest2)
      else (none, rest2)
    | [] => (none, [])

/-- The separator class `[\s-\s|\s]*` of `paramRegex`: whitespace, `-` or `|`. -/
def isParamSep (c : Char) : Bool := isJsSpace c || c = '-' || c = '|'

/-- Drop the leading run matched by the greedy `[\s-\s|\s]*`. -/
def dropParamSep : JStr → JStr
  | [] => []
  | c :: r => if isParamSep c then dropParamSep r else c :: r

/-- The name-and-rest tail of `paramRegex`: `(?:\[(\w+).*\]|(\w+))[\s-\s|\s]*(.*)`.
Returns `(name, group4)`: the captured parameter name (group 2 or 3) and the
trailing description (group 4).  The bracketed alternative needs a nonempty
`\w+` directly after `[` and a `]` anywhere later (greedy `.*` runs to the
last `]`).  -/
def matchParamNamePart (u : JStr) : Option (JStr × JStr) :=
  match u with
  | '[' :: afterBr =>
    let nm := takeWhileWord afterBr
    if nm.isEmpty then none
    else
      match splitLastChar (afterBr.drop nm.length) ']' with
      | some q => some (nm, dropParamSep q.2)
      | none => none
  | _ =>
    let nm := takeWhileWord u
    if nm.isEmpty then none
    else some (nm, dropParamSep (u.drop nm.length))

/-- Matching of `paramRegex` at one `@param` occurrence, given the text right
after the literal `@param`.  Mirrors the backtracking of
`\s+(?:[lb]([^rb]*)[rb])?\s+`: with a brace clause present and closed, the two
`\s+` are satisfied by the whitespace runs on each side of it; without a
(closed) brace clause the single whitespace run must be split in two, needing
length at least 2.  Returns `(group1, name, group4)`; `group1` here is the
capture *inside* the braces (unlike `returnRegex`, the capturing parenthesis
of `paramRegex` sits inside the braces). -/
def matchParamAt (afterParam : JStr) : Option (Option JStr × JStr × JStr) :=
  let w := countLeadingJsSpace afterParam
  if w = 0 then none
  else
    let t := dropJsSpace afterParam
    match t with
    | c :: afterBrace =>
      if c = lbrace then
        match splitFirstChar afterBrace rbrace with
        | some q =>
          if countLeadingJsSpace q.2 = 0 then none
          else (matchParamNamePart (dropJsSpace q.2)).map fun r => (some q.1, r.1, r.2)
        | none => none
      else
        if w ≥ 2 then (matchParamNamePart t).map fun r => (none, r.1, r.2) else none
    | [] => none

/-- Embeds `paramRegex`: leftmost `@param` occurrence whose tail matches;
on failure at one occurrence the JS engine advances and tries the next one. -/
def matchParam (line : JStr) : Option (Option JStr × JStr × JStr) :=
  match line with
  | [] => none
  | _ :: t =>
    if strStartsWith line (jstr "@param") then
      match matchParamAt (line.drop 6) with
      | some r => some r
      | none => matchParam t
    else matchParam t

/-- Embeds `extendsRegex = /@extends/` as a JS `String.prototype.match` result:
the match array of a regex with no capturing parentheses has only index 0, so
index 1 is absent (`undefined`). -/
def matchExtends (line : JStr) : Option (List (Option JStr)) :=
  if containsSub line (jstr "@extends") then some [some (jstr "@extends")] else none

/-!  ## Data model

Statement shapes as delivered by the external brighterscript parser: only the
fields this plugin reads are modelled.  `accessModifier` is the token-kind
string (`func.accessModifier?.kind`), so "Private" is compared as a string as
in the source. -/

/-- A source position (`{line, character}` as in brighterscript ranges). -/
structure Pos where
  line : Nat
  character : Nat
deriving Repr, DecidableEq

/-- A source range; `stop` embeds the JS field `end` (a Lean keyword). -/
structure SrcRange where
  start : Pos
  stop : Pos
deriving Repr, DecidableEq

/-- The positional data `getCommentForStatement` reads from a statement:
its range and the ranges of its annotation list (`stmt.annotations`). -/
structure StmtPos where
  range : SrcRange
  annots : List SrcRange
deriving Repr, DecidableEq

/-- A brighterscript `CommentStatement`: a range and the raw comment text. -/
structure CommentStatement where
  range : SrcRange
  text : JStr
deriving Repr, DecidableEq

/-- A resolved brighterscript type as far as `getTypeName` can see it:
either a custom (user-defined) type carrying its `name`, or a built-in type
carrying the result of its `toTypeString()`. -/
inductive BscType where
  | custom (name : JStr)
  | builtin (typeString : JStr)
deriving Repr, DecidableEq

/-- Embeds `getTypeName`: "dynamic" for an absent type, the declared name of a
custom type, else the type's `toTypeString()` rendering. -/
def getTypeName : Option BscType → JStr
  | none => jstr "dynamic"
  | some (.custom n) => n
  | some (.builtin s) => s

/-- A function parameter: name token text, optional type, optional
default-value expression range (used to slice its source text). -/
structure FuncParameter where
  name : JStr
  type : Option BscType
  defaultValue : Option SrcRange
deriving Repr, DecidableEq

/-- The function expression under a function statement: parameters and
declared return type. -/
structure FuncExpr where
  parameters : List FuncParameter
  returnType : Option BscType
deriving Repr, DecidableEq

/-- A function statement or class method statement.  `isClassMethod` embeds
the `func instanceof bs.ClassMethodStatement` test; `accessModifier` is the
modifier token's kind string when present. -/
structure FunctionStatement where
  name : JStr
  func : FuncExpr
  accessModifier : Option JStr
  overrides : Bool
  isClassMethod : Bool
  pos : StmtPos
deriving Repr, DecidableEq

/-- A class field statement; `fieldType` is what `field.getType()` resolves to. -/
structure ClassFieldStatement where
  name : JStr
  accessModifier : Option JStr
  fieldType : Option BscType
  pos : StmtPos
deriving Repr, DecidableEq

mutual
/-- A brighterscript statement, restricted to the kinds the plugin inspects;
every other statement kind is `other` (ignored by `groupStatements`). -/
inductive BsStatement where
  | comment (c : CommentStatement)
  | func (f : FunctionStatement)
  | cls (k : ClassStatement)
  | nsp (n : NamespaceStatement)
  | other (pos : StmtPos)
deriving Repr

/-- A class statement: name, optional parent class name
(`klass.parentClassName?.getName()`), body statements (searched for member
comments), and the `fields` / `methods` accessor lists. -/
inductive ClassStatement where
  | mk (name : JStr) (parentClassName : Option JStr) (body : List BsStatement)
       (fields : List ClassFieldStatement) (methods : List FunctionStatement)
       (pos : StmtPos)
deriving Repr

/-- A namespace statement: (possibly dotted) name and body statements. -/
inductive NamespaceStatement where
  | mk (name : JStr) (body : List BsStatement) (pos : StmtPos)
deriving Repr
end

def ClassStatement.name : ClassStatement → JStr
  | .mk n _ _ _ _ _ => n

def ClassStatement.parentClassName : ClassStatement → Option JStr
  | .mk _ p _ _ _ _ => p

def ClassStatement.body : ClassStatement → List BsStatement
  | .mk _ _ b _ _ _ => b

def ClassStatement.fields : ClassStatement → List ClassFieldStatement
  | .mk _ _ _ fs _ _ => fs

def ClassStatement.methods : ClassStatement → List FunctionStatement
  | .mk _ _ _ _ ms _ => ms

def ClassStatement.pos : ClassStatement → StmtPos
  | .mk _ _ _ _ _ p => p

def NamespaceStatement.name : NamespaceStatement → JStr
  | .mk n _ _ => n

def NamespaceStatement.body : NamespaceStatement → List BsStatement
  | .mk _ b _ => b

def NamespaceStatement.pos : NamespaceStatement → StmtPos
  | .mk _ _ p => p

/-- The result type of `groupStatements`. -/
structure GroupedStatements where
  comments : List CommentStatement
  functions : List FunctionStatement
  classes : List ClassStatement
  namespaces : List NamespaceStatement
deriving Repr

/-- Embeds `groupStatements`: partitions sibling statements into comments,
functions, classes and namespaces (order preserved; other kinds dropped). -/
def groupStatements (statements : List BsStatement) : GroupedStatements where
  comments := statements.filterMap fun s => match s with
    | .comment c => some c
    | _ => none
  functions := statements.filterMap fun s => match s with
    | .func f => some f
    | _ => none
  classes := statements.filterMap fun s => match s with
    | .cls k => some k
    | _ => none
  namespaces := statements.filterMap fun s => match s with
    | .nsp n => some n
    | _ => none

/-- The association predicate inside `getCommentForStatement`: the comment's
end line is one above the target start line (the first annotation's start line
when annotations exist, else the statement's start line), or the comment ends
on the statement's own start line. -/
def documentsStatement (stmt : StmtPos) (comment : CommentStatement) : Bool :=
  let commentEndLine := comment.range.stop.line
  let targetStartLine := match stmt.annots with
    | a :: _ => a.start.line
    | [] => stmt.range.start.line
  commentEndLine + 1 == targetStartLine || commentEndLine == stmt.range.start.line

/-- Embeds `getCommentForStatement`: the first comment (in original order)
satisfying `documentsStatement`, if any. -/
def getCommentForStatement (comments : List CommentStatement) (stmt : StmtPos) :
    Option CommentStatement :=
  comments.find? (documentsStatement stmt)

/-- Embeds `getMemberOf`: the namespace name when nonempty (JS truthiness),
else the module name; an empty result yields the empty string instead of a
memberof tag line. -/
def getMemberOf (moduleName namespaceName : JStr) : JStr :=
  let memberOf := if namespaceName.isEmpty then moduleName else namespaceName
  if memberOf.isEmpty then [] else jstr " * @memberof module:" ++ memberOf

/-- Embeds `paramOrReturnDescriptionHelper`: trim; keep a leading `-`
verbatim; strip one leading `,`; prefix `- ` to any remaining nonempty text. -/
def paramOrReturnDescriptionHelper (desc : JStr) : JStr :=
  let d := jsTrim desc
  if strStartsWith d (jstr "-") then d
  else
    let d := if strStartsWith d (jstr ",") then d.drop 1 else d
    if d.isEmpty then [] else jstr "- " ++ d

/-!  ## Comment text conversion -/

/-- Embeds `line.replace(bsMeaningfulCommentRegex, '$1')`: when the text
starts (after whitespace) with `'` or `REM`, the marker together with following
whitespace, asterisk run and whitespace is stripped (the capture `(.*)` and the
untouched remainder of the text are what is left); otherwise unchanged. -/
def bsMeaningfulReplace (text : JStr) : JStr :=
  let s0 := dropJsSpace text
  match s0 with
  | '\'' :: r => dropJsSpace ((dropJsSpace r).dropWhile (· = '*'))
  | _ =>
    if strStartsWith s0 (jstr "REM") then
      dropJsSpace ((dropJsSpace (s0.drop 3)).dropWhile (· = '*'))
    else text

/-- Embeds `line.replace(jsCommentStartRegex, '$1')`: strips leading
whitespace, an optional `/*`-opener (slash plus a run of asterisks) and
following whitespace. -/
def jsCommentStartStrip (line : JStr) : JStr :=
  let s0 := dropJsSpace line
  match s0 with
  | '/' :: '*' :: r => dropJsSpace (r.dropWhile (· = '*'))
  | _ => dropJsSpace s0

/-- Helper for `removeCloser`: consumes a run of asterisks followed by a
slash, returning the remainder; `none` when the run does not end in `/`. -/
def starRunSlash : JStr → Option JStr
  | '*' :: r => starRunSlash r
  | '/' :: r => some r
  | _ => none

/-- Worker for `removeCloser`, one character per step: while `skip` is
positive the current character belongs to an already-recognized match and is
dropped; at `skip = 0` a match starting here (asterisk run, slash, trailing
whitespace) is measured and its characters scheduled for dropping, else the
character is kept. -/
def removeCloserAux (skip : Nat) : JStr → JStr
  | [] => []
  | c :: t =>
    match skip with
    | k + 1 => removeCloserAux k t
    | 0 =>
      match starRunSlash (c :: t) with
      | some r => removeCloserAux ((c :: t).length - r.length + countLeadingJsSpace r - 1) t
      | none => c :: removeCloserAux 0 t

/-- Embeds `line.replace(/\**\/\s*/g, "")`: every (possibly empty) asterisk
run followed by a slash, together with trailing whitespace, is removed;
scanning continues after each removal. -/
def removeCloser (s : JStr) : JStr := removeCloserAux 0 s

/-- Embeds `convertCommentTextToJsDocLines`: the `/**` opener followed by the
comment's lines, each stripped of the line-comment convention, trimmed, the
first additionally stripped of a block-comment opener, all stripped of
block-comment closers, and prefixed with ` * `.  A missing comment or empty
text (JS truthiness of `comment && comment.text`) gives just the opener. -/
def convertCommentTextToJsDocLines (comment : Option CommentStatement) : List JStr :=
  let commentLines : List JStr := [jstr "/**"]
  match comment with
  | some c =>
    if c.text.isEmpty then commentLines
    else
      let ls := ((splitOnChar '\n' c.text).map bsMeaningfulReplace).map jsTrim
      commentLines ++ ls.mapIdx fun i line =>
        let line := if i = 0 then jsCommentStartStrip line else line
        jstr " * " ++ removeCloser line
  | none => commentLines

/-!  ## processFunction -/

/-- Embeds the `commentLines.filter` loop of `processFunction` for one
parameter (source lines 204-222): every line whose `paramRegex` match names
this parameter (case-insensitively, after trimming) is dropped from the pool;
when such a line carries a nonempty type clause, the (trimmed) type and — only
then — its nonempty description are adopted, later matches overriding earlier
ones.  Returns the final `(paramType, paramDescription)` and the kept lines. -/
def scanParamLines (paramName : JStr) (paramType paramDescription : JStr) :
    List JStr → JStr × JStr × List JStr
  | [] => (paramType, paramDescription, [])
  | l :: rest =>
    match matchParam l with
    | some (g1, nm, g4) =>
      let commentParamName := nm
      let commentParamType := g1.getD []
      if toLowerJs (jsTrim paramName) = toLowerJs (jsTrim commentParamName) then
        let st :=
          if commentParamType.isEmpty then (paramType, paramDescription)
          else (jsTrim commentParamType,
                if g4.isEmpty then paramDescription else g4)
        scanParamLines paramName st.1 st.2 rest
      else
        let r := scanParamLines paramName paramType paramDescription rest
        (r.1, r.2.1, l :: r.2.2)
    | none =>
      let r := scanParamLines paramName paramType paramDescription rest
      (r.1, r.2.1, l :: r.2.2)

/-- Renders one `@param` tag line (source lines 224-239): type in braces, then
the bare name or `[name=defaultSourceSlice]` for a defaulted parameter (the
default's source slice read from `parserLines`), then the dash-normalized
description when nonempty. -/
def buildParamLine (parserLines : List JStr) (paramType : JStr) (param : FuncParameter)
    (paramDescription : JStr) : JStr :=
  let base := jstr " * @param " ++ [lbrace] ++ paramType ++ [rbrace] ++ jstr " "
  let base := match param.defaultValue with
    | some r =>
      let defaultValue := jsSlice (parserLines.getD r.start.line []) r.start.character r.stop.character
      base ++ jstr "[" ++ param.name ++ jstr "=" ++ defaultValue ++ jstr "]"
    | none => base ++ param.name
  if paramDescription.isEmpty then base
  else base ++ jstr " " ++ paramOrReturnDescriptionHelper paramDescription

/-- Embeds the parameter loop of `processFunction` (source lines 198-240):
for each parameter in declaration order, scan-and-consume its comment tag
lines, then render its tag line.  Returns the remaining comment lines, the
rendered parameter tag lines (in declaration order) and the parameter name
list. -/
def reconcileParams (parserLines : List JStr) :
    List FuncParameter → List JStr → List JStr × List JStr × List JStr
  | [], commentLines => (commentLines, [], [])
  | p :: ps, commentLines =>
    let s := scanParamLines p.name (getTypeName p.type) [] commentLines
    let line := buildParamLine parserLines s.1 p s.2.1
    let r := reconcileParams parserLines ps s.2.2
    (r.1, line :: r.2.1, p.name :: r.2.2)

/-- Builds the return tag line from a matched comment line (source lines
250-259): the comment's type capture (braces included) is kept — trimmed —
only when it case-insensitively equals the structural return type name,
otherwise the structural name is used; a nonempty rest is appended as a
dash-normalized description. -/
def buildReturnLine (structReturnTypeName : JStr) (g1 : Option JStr) (g2 : JStr) : JStr :=
  let commentReturnType :=
    match g1 with
    | some s =>
      if toLowerJs (jsTrim s) = toLowerJs structReturnTypeName then jsTrim s
      else structReturnTypeName
    | none => structReturnTypeName
  let line := jstr " * @return " ++ [lbrace] ++ commentReturnType ++ [rbrace]
  if g2.isEmpty then line else line ++ jstr " " ++ paramOrReturnDescriptionHelper g2

/-- Embeds the return-scan loop of `processFunction` (source lines 248-263):
an index loop that splices each matched line out *without* stepping the index
back, so the element right after a matched line is skipped (and survives even
if it matches).  Each match rebuilds the return line; unmatched lines are
kept. -/
def scanReturnLines (structReturnTypeName : JStr) (returnLine : JStr) :
    List JStr → JStr × List JStr
  | [] => (returnLine, [])
  | l :: rest =>
    match matchReturn l with
    | some (g1, g2) =>
      let newLine := buildReturnLine structReturnTypeName g1 g2
      match rest with
      | [] => (newLine, [])
      | skipped :: rest' =>
        let r := scanReturnLines structReturnTypeName newLine rest'
        (r.1, skipped :: r.2)
    | none =>
      let r := scanReturnLines structReturnTypeName returnLine rest
      (r.1, l :: r.2)

/-- The tail of `processFunction`'s output (source lines 274-289): the
optional constructor marker, the comment closer, the synthetic declaration —
`function name (...)` for a plain function, `name (...)` for a class method,
`constructor(...)` for a method named `new` (case-insensitively) — and the
optional namespace-qualifying assignment. -/
def functionDeclarationLines (func : FunctionStatement) (joinedNames namespaceName : JStr) :
    List JStr :=
  let funcName := func.name
  let ctorDecl :=
    if func.isClassMethod then
      if toLowerJs funcName = jstr "new" then
        ([jstr " * @constructor"], jstr "constructor(" ++ joinedNames ++ jstr ") \x7b \x7d; \n")
      else ([], funcName ++ jstr " (" ++ joinedNames ++ jstr ") \x7b \x7d; \n")
    else ([], jstr "function " ++ funcName ++ jstr " (" ++ joinedNames ++ jstr ") \x7b \x7d; \n")
  ctorDecl.1 ++ [jstr " */", ctorDecl.2] ++
    (if namespaceName.isEmpty then []
     else [namespaceName ++ jstr "." ++ funcName ++ jstr " = " ++ funcName ++ jstr "; "])

/-- Embeds `processFunction` (as its output line list, before the final
newline join): passthrough comment lines, parameter tags, optional private
access tag, the return tag, the memberof line, optional override and
constructor markers, the comment closer, the synthetic declaration and the
optional namespace-qualifying assignment. -/
def processFunctionLines (parserLines : List JStr) (comment : Option CommentStatement)
    (func : FunctionStatement) (moduleName namespaceName : JStr) : List JStr :=
  let commentLines := convertCommentTextToJsDocLines comment
  let rp := reconcileParams parserLines func.func.parameters commentLines
  let output := rp.2.1 ++
    (if func.name.head? = some '_' ∨ func.accessModifier = some (jstr "Private")
     then [jstr " * @access private"] else [])
  let structReturnTypeName := getTypeName func.func.returnType
  let initialReturnLine := jstr " * @return " ++ [lbrace] ++ structReturnTypeName ++ [rbrace]
  let sr := scanReturnLines structReturnTypeName initialReturnLine rp.1
  let totalOutput := sr.2 ++ output ++ [sr.1, getMemberOf moduleName namespaceName] ++
    (if func.overrides then [jstr " * @override"] else [])
  totalOutput ++ functionDeclarationLines func (joinSep (jstr ", ") rp.2.2) namespaceName

/-- Embeds `processFunction`: its line list joined with newlines. -/
def processFunction (parserLines : List JStr) (comment : Option CommentStatement)
    (func : FunctionStatement) (moduleName namespaceName : JStr) : JStr :=
  joinNl (processFunctionLines parserLines comment func moduleName namespaceName)

/-!  ## processClassField and processClass -/

/-- Embeds `processClassField`: a private field yields the empty string (no
property tag); otherwise a `@property` tag with the field's resolved type,
name, and the comment text stripped of the line-comment convention. -/
def processClassField (comment : Option CommentStatement) (field : ClassFieldStatement) : JStr :=
  if field.accessModifier = some (jstr "Private") then []
  else
    let description := match comment with
      | some c => bsMeaningfulReplace c.text
      | none => []
    jstr " * @property " ++ [lbrace] ++ jstr " " ++ getTypeName field.fieldType ++ jstr " " ++
      [rbrace] ++ jstr " " ++ field.name ++ jstr " " ++ description ++ jstr " "

/-- Embeds the extends-scan loop of `processClass` (source lines 339-345):
walks the comment lines and splices out (then stops at) the first line whose
`extendsRegex` match has a defined capture group 1 — which never happens,
because `/@extends/` has no capturing parentheses. -/
def removeExtendsLine : List JStr → List JStr
  | [] => []
  | l :: rest =>
    match matchExtends l with
    | some groups =>
      if (groups.getD 1 none).isSome then rest
      else l :: removeExtendsLine rest
    | none => l :: removeExtendsLine rest

/-- Embeds `processClass` (as its output piece list, before the newline
join): the class comment block (passthrough lines, synthetic extends tag when
a parent exists, memberof line, one property tag per field, closer), the
synthetic class declaration, the processed methods (note: called without
module or namespace name, as in the source), the closing brace and the
optional namespace-qualifying assignment. -/
def processClassLines (parserLines : List JStr) (comment : Option CommentStatement)
    (klass : ClassStatement) (moduleName namespaceName : JStr) : List JStr :=
  let commentLines := convertCommentTextToJsDocLines comment
  let klassCode := groupStatements klass.body
  let pe :=
    match klass.parentClassName with
    | some p => (p, jstr " * @extends " ++ p ++ jstr " ")
    | none => (([] : JStr), ([] : JStr))
  let parentClassName := pe.1
  let extendsLine := pe.2
  let commentLines1 := removeExtendsLine commentLines
  let commentLines2 := commentLines1 ++ (if extendsLine.isEmpty then [] else [extendsLine])
  let commentLines3 := commentLines2 ++ [getMemberOf moduleName namespaceName]
  let commentLines4 := commentLines3 ++ klass.fields.map (fun field =>
    processClassField (getCommentForStatement klassCode.comments field.pos) field)
  let commentLines5 := commentLines4 ++ [jstr " */"]
  let klassName := klass.name
  let classDecl :=
    if parentClassName.isEmpty then jstr "class " ++ klassName ++ jstr " \x7b\n"
    else jstr "class " ++ klassName ++ jstr " extends " ++ parentClassName ++ jstr " \x7b\n"
  let methodOutputs := klass.methods.map fun method =>
    processFunction parserLines (getCommentForStatement klassCode.comments method.pos) method [] []
  [joinNl commentLines5, classDecl] ++ methodOutputs ++ [jstr "\x7d\n"] ++
    (if namespaceName.isEmpty then []
     else [namespaceName ++ jstr "." ++ klassName ++ jstr " = " ++ klassName ++ jstr "; "])

/-- Embeds `processClass`: its piece list joined with newlines. -/
def processClass (parserLines : List JStr) (comment : Option CommentStatement)
    (klass : ClassStatement) (moduleName namespaceName : JStr) : JStr :=
  joinNl (processClassLines parserLines comment klass moduleName namespaceName)

/-!  ## Recursive statement processing

`namespacesCreated` is a module-global array in the source (`const
namespacesCreated = []`, filled by `processNamespace`, never reset).  It is
threaded here explicitly as an input and output of each processing function:
the initial value at program start is `[]`, and `beforeParse` passes the
current value through untouched. -/

mutual
/-- The `code.namespaces.forEach` loop of `processStatements`, iterating the
scope's original statement list and handling its namespace statements in
order — which visits exactly the elements of `groupStatements`'s
`namespaces` partition, in the same order — with the created-set state
flowing left to right through the calls. -/
def processNamespacesIn (parserLines : List JStr) (comments : List CommentStatement)
    (statements : List BsStatement) (moduleName namespaceName : JStr)
    (namespacesCreated : List JStr) : List JStr × List JStr :=
  match statements with
  | [] => ([], namespacesCreated)
  | .nsp n :: rest =>
    let o := processNamespace parserLines (getCommentForStatement comments n.pos) n
      moduleName namespaceName namespacesCreated
    let os := processNamespacesIn parserLines comments rest moduleName namespaceName o.2
    (o.1 :: os.1, os.2)
  | _ :: rest =>
    processNamespacesIn parserLines comments rest moduleName namespaceName namespacesCreated

/-- Embeds `processNamespace`: qualifies the namespace name under its parent;
when the qualified name is not yet in `namespacesCreated`, emits the comment
block (memberof of the parent, `@namespace` tag) and the container-creation
line (a `var` for a root namespace; note the source emits the literal
property name `namespaceName` for a nested one), records the name, then
recurses into the body with the qualified name as enclosing namespace.  The
`let r := ...` below inlines the body of `processStatements` (defined after
this block) so that the recursion is structural; `processStatements` is
definitionally that expression. -/
def processNamespace (parserLines : List JStr) (comment : Option CommentStatement)
    (nstmt : NamespaceStatement) (moduleName parentNamespaceName : JStr)
    (namespacesCreated : List JStr) : JStr × List JStr :=
  match nstmt with
  | .mk nsName body _ =>
    let namespaceName :=
      if parentNamespaceName.isEmpty then nsName
      else parentNamespaceName ++ jstr "." ++ nsName
    let created := namespaceName ∈ namespacesCreated
    let st1 := if created then namespacesCreated else namespacesCreated ++ [namespaceName]
    let r :=
      let code := groupStatements body
      if code.comments.isEmpty ∧ code.functions.isEmpty ∧ code.classes.isEmpty ∧
          code.namespaces.isEmpty then
        (([] : JStr), st1)
      else
        let functionOutputs := code.functions.map fun f =>
          processFunction parserLines (getCommentForStatement code.comments f.pos) f
            moduleName namespaceName
        let classOutputs := code.classes.map fun k =>
          processClass parserLines (getCommentForStatement code.comments k.pos) k
            moduleName namespaceName
        let nr := processNamespacesIn parserLines code.comments body
          moduleName namespaceName st1
        (joinNl (functionOutputs ++ classOutputs ++ nr.1), nr.2)
    if created then (joinNl [r.1], r.2)
    else
      let commentLines := convertCommentTextToJsDocLines comment
      let commentLines := commentLines ++ [getMemberOf moduleName parentNamespaceName]
      let commentLines := commentLines ++ [jstr " * @namespace " ++ namespaceName ++ jstr " "]
      let commentLines := commentLines ++ [jstr " */"]
      let creation :=
        if parentNamespaceName.isEmpty then jstr "var " ++ namespaceName ++ jstr " = \x7b\x7d; "
        else parentNamespaceName ++ jstr ".namespaceName = \x7b\x7d"
      (joinNl [joinNl commentLines, creation, r.1], r.2)
end

/-- Embeds `processStatements`: groups the statements, returns the empty
string (state untouched) when nothing relevant is present, else processes
functions, classes and namespaces in that order, locating each one's comment
in the sibling comment pool, and joins the pieces with newlines. -/
def processStatements (parserLines : List JStr) (statements : List BsStatement)
    (moduleName namespaceName : JStr) (namespacesCreated : List JStr) :
    JStr × List JStr :=
  let code := groupStatements statements
  if code.comments.isEmpty ∧ code.functions.isEmpty ∧ code.classes.isEmpty ∧
      code.namespaces.isEmpty then
    ([], namespacesCreated)
  else
    let functionOutputs := code.functions.map fun f =>
      processFunction parserLines (getCommentForStatement code.comments f.pos) f
        moduleName namespaceName
    let classOutputs := code.classes.map fun k =>
      processClass parserLines (getCommentForStatement code.comments k.pos) k
        moduleName namespaceName
    let nr := processNamespacesIn parserLines code.comments statements
      moduleName namespaceName namespacesCreated
    (joinNl (functionOutputs ++ classOutputs ++ nr.1), nr.2)

/-!  ## beforeParse -/

/-- The character class `[^\*\s]` of the module regex. -/
def isModuleNameChar (c : Char) : Bool := !(c = '*' || isJsSpace c)

/-- Embeds `e.source.match(/@module ([^\*\s]+)/)`: the capture of the
leftmost occurrence of the literal `@module ` followed by a nonempty run of
non-asterisk non-whitespace characters. -/
def moduleMatchCapture (source : JStr) : Option JStr :=
  match source with
  | [] => none
  | _ :: t =>
    if strStartsWith source (jstr "@module ") then
      let run := (source.drop 8).takeWhile isModuleNameChar
      if run.isEmpty then moduleMatchCapture t else some run
    else moduleMatchCapture t

/-- `path.parse(filename).name`: the part after the last path separator,
without the extension starting at its last dot (a dot at position 0 — a
dotfile — is part of the name, not an extension). -/
def pathParseName (filename : JStr) : JStr :=
  let base := match splitLastChar filename '/' with
    | some p => p.2
    | none => filename
  match splitLastChar base '.' with
  | some p => if p.1.isEmpty then base else p.1
  | none => base

/-- Embeds the `beforeParse` handler (lexing/parsing is the external
collaborator, so the parsed `statements` are an input).  Resolves the module
name — the `@module` tag's capture when the source text has one, else the
file base name with every dot replaced by an underscore — and
unconditionally pushes the `/** @module ... */` line, followed by the
processed statements.  The module-global `namespacesCreated` flows through
without being reset. -/
def beforeParse (statements : List BsStatement) (source filename : JStr)
    (namespacesCreated : List JStr) : JStr × List JStr :=
  let parserLines := splitOnChar '\n' source
  let moduleName :=
    match moduleMatchCapture source with
    | some m => m
    | none => (pathParseName filename).map fun c => if c = '.' then '_' else c
  let r := processStatements parserLines statements moduleName [] namespacesCreated
  (joinNl [jstr "/** @module " ++ moduleName ++ jstr " */", r.1], r.2)

/-!  ## Helper lemmas -/

theorem find?_eq_some_split {α : Type} (p : α → Bool) :
    ∀ (l : List α) (a : α), l.find? p = some a ↔
      ∃ pre post, l = pre ++ a :: post ∧ p a = true ∧ ∀ b ∈ pre, p b = false := by
  intro l
  induction l with
  | nil => intro a; simp [List.find?]
  | cons x xs ih =>
    intro a
    by_cases hx : p x = true
    · rw [List.find?_cons_of_pos _ hx]
      constructor
      · rintro h
        cases h
        exact ⟨[], xs, rfl, hx, by simp⟩
      · rintro ⟨pre, post, heq, hpa, hpre⟩
        cases pre with
        | nil =>
          simp only [List.nil_append, List.cons.injEq] at heq
          rw [heq.1]
        | cons q qs =>
          simp only [List.cons_append, List.cons.injEq] at heq
          have : p x = false := heq.1 ▸ hpre q (by simp)
          rw [this] at hx
          cases hx
    · rw [List.find?_cons_of_neg _ hx]
      rw [ih a]
      constructor
      · rintro ⟨pre, post, heq, hpa, hpre⟩
        refine ⟨x :: pre, post, by rw [heq]; rfl, hpa, ?_⟩
        intro b hb
        rcases List.mem_cons.mp hb with rfl | hb
        · exact Bool.not_eq_true _ ▸ (by simpa using hx)
        · exact hpre b hb
      · rintro ⟨pre, post, heq, hpa, hpre⟩
        cases pre with
        | nil =>
          simp only [List.nil_append, List.cons.injEq] at heq
          rw [heq.1] at hx
          exact absurd hpa hx
        | cons q qs =>
          simp only [List.cons_append, List.cons.injEq] at heq
          exact ⟨qs, post, heq.2, hpa, fun b hb => hpre b (by simp [heq.1, hb])⟩

theorem scanParamLines_sublist (paramName : JStr) :
    ∀ (ls : List JStr) (ty ds : JStr),
      (scanParamLines paramName ty ds ls).2.2.Sublist ls := by
  intro ls
  induction ls with
  | nil => intro ty ds; simp [scanParamLines]
  | cons l rest ih =>
    intro ty ds
    unfold scanParamLines
    cases hm : matchParam l with
    | none => exact List.Sublist.cons₂ l (ih ty ds)
    | some r =>
      obtain ⟨g1, nm, g4⟩ := r
      by_cases he : toLowerJs (jsTrim paramName) = toLowerJs (jsTrim nm)
      · simp only [he, if_true]
        exact List.Sublist.cons l (ih _ _)
      · simp only [he, if_false]
        exact List.Sublist.cons₂ l (ih ty ds)

theorem reconcileParams_sublist (parserLines : List JStr) :
    ∀ (ps : List FuncParameter) (cls : List JStr),
      (reconcileParams parserLines ps cls).1.Sublist cls := by
  intro ps
  induction ps with
  | nil => intro cls; simp [reconcileParams]
  | cons p rest ih =>
    intro cls
    unfold reconcileParams
    exact (ih _).trans (scanParamLines_sublist p.name cls (getTypeName p.type) [])

/-- Shared with the parameter-related claims: the parameter name list built by
`reconcileParams` is exactly the declared names, in order. -/
theorem reconcileParams_names (parserLines : List JStr) :
    ∀ (ps : List FuncParameter) (cls : List JStr),
      (reconcileParams parserLines ps cls).2.2 = ps.map FuncParameter.name := by
  intro ps
  induction ps with
  | nil => intro cls; simp [reconcileParams]
  | cons p rest ih => intro cls; simp [reconcileParams, ih]

theorem scanReturnLines_no_match (ty : JStr) :
    ∀ (ls : List JStr) (rl : JStr), (∀ l ∈ ls, matchReturn l = none) →
      scanReturnLines ty rl ls = (rl, ls) := by
  intro ls
  induction ls with
  | nil => intro rl _; simp [scanReturnLines]
  | cons l rest ih =>
    intro rl h
    unfold scanReturnLines
    rw [h l (by simp)]
    rw [ih rl (fun x hx => h x (by simp [hx]))]

theorem matchReturn_returnTag_isSome (s : JStr) :
    (matchReturn (jstr " * @return " ++ s)).isSome = true := by
  have h1 : splitFirstSub (jstr " * @return " ++ s) (jstr "@return") =
      some (jstr " * ", ' ' :: s) := rfl
  unfold matchReturn
  rw [h1]
  rfl

theorem infix_mid {α : Type} (A mid B : List α) : List.IsInfix mid (A ++ (mid ++ B)) :=
  ⟨A, B, by simp⟩

/-!  ## Concrete fixtures used by closed theorems -/

/-- A plain zero-parameter untyped function, `function foo()`. -/
def fooFunc : FunctionStatement :=
  { name := jstr "foo"
    func := { parameters := [], returnType := none }
    accessModifier := none
    overrides := false
    isClassMethod := false
    pos := ⟨⟨⟨2, 0⟩, ⟨3, 0⟩⟩, []⟩ }

/-- `function foo() as integer`. -/
def fooFuncInt : FunctionStatement :=
  { fooFunc with func := { parameters := [], returnType := some (.builtin (jstr "integer")) } }

/-- A comment carrying two consecutive return-tag lines. -/
def twoReturnsComment : CommentStatement :=
  ⟨⟨⟨0, 0⟩, ⟨1, 0⟩⟩, jstr "' @return {integer} a\n' @return {integer} b"⟩

/-- A comment whose return tag spells the type `Integer`. -/
def capitalIntComment : CommentStatement :=
  ⟨⟨⟨0, 0⟩, ⟨1, 0⟩⟩, jstr "' @return {Integer} the max"⟩

/-- `class Dog extends Animal` with a manual extends tag in its comment. -/
def dogClass : ClassStatement :=
  .mk (jstr "Dog") (some (jstr "Animal")) [] [] [] ⟨⟨⟨2, 0⟩, ⟨3, 0⟩⟩, []⟩

/-- The manual inheritance comment above `dogClass`. -/
def dogComment : CommentStatement :=
  ⟨⟨⟨0, 0⟩, ⟨1, 0⟩⟩, jstr "' @extends Animal"⟩

/-- A class with one public field named with a leading underscore. -/
def underscoreFieldClass : ClassStatement :=
  .mk (jstr "K") none []
    [⟨jstr "_secret", none, none, ⟨⟨⟨1, 0⟩, ⟨1, 10⟩⟩, []⟩⟩] []
    ⟨⟨⟨0, 0⟩, ⟨2, 0⟩⟩, []⟩

/-- A private method fixture, `private function hidden()`. -/
def privateMethod : FunctionStatement :=
  { fooFunc with name := jstr "hidden", accessModifier := some (jstr "Private"),
                 isClassMethod := true }

/-- A private class field fixture. -/
def privateField : ClassFieldStatement :=
  ⟨jstr "inner", some (jstr "Private"), none, ⟨⟨⟨1, 0⟩, ⟨1, 10⟩⟩, []⟩⟩

/-- A comment ending on line 5 (both on `fnAt5`'s start line and one line
above `fnAt6`'s start line). -/
def sharedComment : CommentStatement := ⟨⟨⟨4, 0⟩, ⟨5, 0⟩⟩, jstr "' hello doc"⟩

/-- A function starting on line 5 (the comment's own end line). -/
def fnAt5 : FunctionStatement :=
  { fooFunc with name := jstr "fA", pos := ⟨⟨⟨5, 0⟩, ⟨5, 20⟩⟩, []⟩ }

/-- A function starting on line 6 (one line below the comment's end). -/
def fnAt6 : FunctionStatement :=
  { fooFunc with name := jstr "fB", pos := ⟨⟨⟨6, 0⟩, ⟨6, 20⟩⟩, []⟩ }

/-- The namespace `alpha` containing one function. -/
def alphaNamespace : NamespaceStatement :=
  .mk (jstr "alpha") [.func fooFunc] ⟨⟨⟨1, 0⟩, ⟨4, 0⟩⟩, []⟩

/-!  ## Claim theorems -/

/-- C1: for every callable with N structural parameters, the reconciled
parameter tag block contains exactly N tag lines — one rendered per
`FuncParameter`, in declaration order, with the parameter name list equal to
the declared names — for *every* comment line pool (hence independent of the
order parameter tags appear in the source comment); and that block appears
contiguously inside `processFunction`'s output lines. -/
theorem c1_param_tags_exact_per_parameter :
    (∀ (parserLines : List JStr) (ps : List FuncParameter) (commentLines : List JStr),
      (reconcileParams parserLines ps commentLines).2.2 = ps.map FuncParameter.name ∧
      (reconcileParams parserLines ps commentLines).2.1.length = ps.length ∧
      List.Forall₂ (fun line p => ∃ ty ds, line = buildParamLine parserLines ty p ds)
        (reconcileParams parserLines ps commentLines).2.1 ps) ∧
    (∀ (parserLines : List JStr) (comment : Option CommentStatement)
        (func : FunctionStatement) (moduleName namespaceName : JStr),
      List.IsInfix
        (reconcileParams parserLines func.func.parameters
          (convertCommentTextToJsDocLines comment)).2.1
        (processFunctionLines parserLines comment func moduleName namespaceName)) := by
  constructor
  · intro parserLines ps
    induction ps with
    | nil => intro cls; refine ⟨rfl, rfl, List.Forall₂.nil⟩
    | cons p rest ih =>
      intro cls
      refine ⟨by simp [reconcileParams, (ih _).1], ?_, ?_⟩
      · simp only [reconcileParams, List.length_cons]
        rw [(ih _).2.1]
      · exact List.Forall₂.cons ⟨_, _, rfl⟩ (ih _).2.2
  · intro parserLines comment func moduleName namespaceName
    simp only [processFunctionLines, List.append_assoc]
    exact infix_mid _ _ _

/-- C7: the comment locator returns a comment exactly when it is the first,
in original order, whose end line is one above the declaration's effective
start line (the first annotation's start line when annotations exist, else
the declaration's start line) or equals the declaration's own start line;
it returns `none` exactly when no comment qualifies. -/
theorem c7_comment_locator_rule :
    (∀ (comments : List CommentStatement) (stmt : StmtPos) (c : CommentStatement),
      getCommentForStatement comments stmt = some c ↔
        ∃ pre post, comments = pre ++ c :: post ∧ documentsStatement stmt c = true ∧
          ∀ b ∈ pre, documentsStatement stmt b = false) ∧
    (∀ (comments : List CommentStatement) (stmt : StmtPos),
      getCommentForStatement comments stmt = none ↔
        ∀ c ∈ comments, documentsStatement stmt c = false) ∧
    (∀ (stmt : StmtPos) (c : CommentStatement),
      documentsStatement stmt c = true ↔
        (c.range.stop.line + 1 = (match stmt.annots with
            | a :: _ => a.start.line
            | [] => stmt.range.start.line) ∨
         c.range.stop.line = stmt.range.start.line)) := by
  refine ⟨?_, ?_, ?_⟩
  · intro comments stmt c
    exact find?_eq_some_split (documentsStatement stmt) comments c
  · intro comments stmt
    rw [getCommentForStatement, List.find?_eq_none]
    constructor
    · intro h c hc
      exact Bool.not_eq_true _ ▸ h c hc
    · intro h c hc
      simp [h c hc]
  · intro stmt c
    unfold documentsStatement
    cases stmt.annots <;> simp [Nat.beq_eq_true_eq]

/-- C10: a comment is never removed from the sibling pool after association:
`sharedComment` ends on `fnAt5`'s start line and one line above `fnAt6`'s
start line, the locator returns it for both declarations, and the rendered
output of processing both contains the comment's text twice. -/
theorem c10_comment_shared_by_two_declarations :
    getCommentForStatement [sharedComment] fnAt5.pos = some sharedComment ∧
    getCommentForStatement [sharedComment] fnAt6.pos = some sharedComment ∧
    fnAt5 ≠ fnAt6 ∧
    countSub
      (processStatements [] [.comment sharedComment, .func fnAt5, .func fnAt6]
        (jstr "m") [] []).1
      (jstr "hello doc") = 2 := by
  refine ⟨by decide, by decide, by decide, by decide⟩

/-- C2 counterexample: with a comment holding two consecutive return-tag
lines the return-scan loop splices the first out and — stepping the index
without adjustment — skips the second, which survives into the passthrough:
the rendered output of `fooFunc` contains two lines matching the return
pattern (and literally still contains the second source return line). -/
theorem c2_counterexample_second_return_line :
    (processFunctionLines [] (some twoReturnsComment) fooFunc [] []).countP
        (fun l => (matchReturn l).isSome) = 2 ∧
    jstr " * @return {integer} b" ∈
      processFunctionLines [] (some twoReturnsComment) fooFunc [] [] := by
  exact ⟨by decide, by decide⟩

/-- C2 (amended): exactly one return tag line is synthesized and appended per
callable — even when the comment has no return-tag line and the function no
declared return type, in which case it renders the dynamic marker — and when
no normalized comment line, reconciled parameter tag line, memberof line or
declaration line matches the return pattern, the whole output contains
exactly one return-pattern line.  (The unrestricted claim is false: see the
counterexample — a return-tag comment line directly after another one
survives into the passthrough.) -/
theorem c2_amended_exactly_one_synthesized_return
    (parserLines : List JStr) (comment : Option CommentStatement)
    (func : FunctionStatement) (moduleName namespaceName : JStr)
    (hc : ∀ l ∈ convertCommentTextToJsDocLines comment, matchReturn l = none)
    (hp : ∀ l ∈ (reconcileParams parserLines func.func.parameters
            (convertCommentTextToJsDocLines comment)).2.1, matchReturn l = none)
    (hm : matchReturn (getMemberOf moduleName namespaceName) = none)
    (hd : ∀ l ∈ functionDeclarationLines func
            (joinSep (jstr ", ") (func.func.parameters.map FuncParameter.name))
            namespaceName, matchReturn l = none) :
    (processFunctionLines parserLines comment func moduleName namespaceName).countP
        (fun l => (matchReturn l).isSome) = 1 ∧
    (func.func.returnType = none →
      jstr " * @return " ++ [lbrace] ++ jstr "dynamic" ++ [rbrace] ∈
        processFunctionLines parserLines comment func moduleName namespaceName) := by
  have hc1 : ∀ l ∈ (reconcileParams parserLines func.func.parameters
      (convertCommentTextToJsDocLines comment)).1, matchReturn l = none := by
    intro l hl
    exact hc l ((reconcileParams_sublist parserLines func.func.parameters
      (convertCommentTextToJsDocLines comment)).mem hl)
  have hsr := scanReturnLines_no_match (getTypeName func.func.returnType)
    (reconcileParams parserLines func.func.parameters
      (convertCommentTextToJsDocLines comment)).1
    (jstr " * @return " ++ [lbrace] ++ getTypeName func.func.returnType ++ [rbrace]) hc1
  have hnames := reconcileParams_names parserLines func.func.parameters
    (convertCommentTextToJsDocLines comment)
  have hinit : matchReturn (jstr " * @return " ++
      lbrace :: (getTypeName func.func.returnType ++ [rbrace])) ≠ none := by
    have h := matchReturn_returnTag_isSome
      (lbrace :: (getTypeName func.func.returnType ++ [rbrace]))
    intro hno
    rw [hno] at h
    exact Bool.false_ne_true h
  constructor
  · simp only [processFunctionLines, hsr, hnames]
    have h1 : List.countP (fun l => (matchReturn l).isSome)
        (reconcileParams parserLines func.func.parameters
          (convertCommentTextToJsDocLines comment)).1 = 0 :=
      List.countP_eq_zero.mpr (by intro a ha; simp [hc1 a ha])
    have h2 : List.countP (fun l => (matchReturn l).isSome)
        (reconcileParams parserLines func.func.parameters
          (convertCommentTextToJsDocLines comment)).2.1 = 0 :=
      List.countP_eq_zero.mpr (by intro a ha; simp [hp a ha])
    have h3 : List.countP (fun l => (matchReturn l).isSome)
        (functionDeclarationLines func
          (joinSep (jstr ", ") (List.map FuncParameter.name func.func.parameters))
          namespaceName) = 0 :=
      List.countP_eq_zero.mpr (by intro a ha; simp [hd a ha])
    have hacc : List.countP (fun l => (matchReturn l).isSome)
        (if func.name.head? = some '_' ∨ func.accessModifier = some (jstr "Private")
         then [jstr " * @access private"] else []) = 0 := by
      split <;> decide
    have hov : List.countP (fun l => (matchReturn l).isSome)
        (if func.overrides then [jstr " * @override"] else []) = 0 := by
      split <;> decide
    simp [List.countP_append, List.countP_cons, h1, h2, h3, hacc, hov, hinit, hm]
  · intro hret
    have hsr2 : scanReturnLines (jstr "dynamic")
        (jstr " * @return " ++ [lbrace] ++ jstr "dynamic" ++ [rbrace])
        (reconcileParams parserLines func.func.parameters
          (convertCommentTextToJsDocLines comment)).1 =
        (jstr " * @return " ++ [lbrace] ++ jstr "dynamic" ++ [rbrace],
         (reconcileParams parserLines func.func.parameters
           (convertCommentTextToJsDocLines comment)).1) := by
      have h := hsr
      rw [hret] at h
      simpa [getTypeName] using h
    simp only [processFunctionLines, hret, getTypeName]
    simp only [List.mem_append, List.mem_cons, List.mem_singleton, List.cons_append,
      List.nil_append, List.append_assoc]
    refine Or.inr (Or.inr (Or.inr (Or.inl ?_)))
    simp only [List.append_assoc, List.cons_append, List.nil_append,
      List.singleton_append] at hsr2
    rw [hsr2]

/-- Witness for the amended C2 at a concrete input: `fooFunc`, no comment. -/
theorem c2_amended_witness :
    (∀ l ∈ convertCommentTextToJsDocLines none, matchReturn l = none) ∧
    (∀ l ∈ (reconcileParams [] fooFunc.func.parameters
        (convertCommentTextToJsDocLines none)).2.1, matchReturn l = none) ∧
    matchReturn (getMemberOf [] []) = none ∧
    (∀ l ∈ functionDeclarationLines fooFunc
        (joinSep (jstr ", ") (fooFunc.func.parameters.map FuncParameter.name)) [],
      matchReturn l = none) ∧
    ((processFunctionLines [] none fooFunc [] []).countP
        (fun l => (matchReturn l).isSome) = 1 ∧
     (fooFunc.func.returnType = none →
       jstr " * @return " ++ [lbrace] ++ jstr "dynamic" ++ [rbrace] ∈
         processFunctionLines [] none fooFunc [] [])) :=
  ⟨by decide, by decide, by decide, by decide,
   c2_amended_exactly_one_synthesized_return [] none fooFunc [] []
     (by decide) (by decide) (by decide) (by decide)⟩

/-- C3 counterexample: the structural return type is `integer` and the
comment spells `{Integer}` — a case-insensitive match — yet the rendered
return tag uses the structural spelling `{integer}`, not the comment's
`{Integer}`: the capture the code compares includes the braces, so the
comparison never succeeds. -/
theorem c3_counterexample_comment_spelling_dropped :
    jstr " * @return {integer} - the max" ∈
      processFunctionLines [] (some capitalIntComment) fooFuncInt [] [] ∧
    (∀ l ∈ processFunctionLines [] (some capitalIntComment) fooFuncInt [] [],
      containsSub l (jstr "{Integer}") = false) ∧
    matchReturn (jstr " * @return {Integer} the max") =
      some (some (jstr "{Integer}"), jstr "the max") := by
  exact ⟨by decide, by decide, by decide⟩

theorem matchReturn_g1_shape (l : JStr) (g : JStr) (g2 : JStr)
    (h : matchReturn l = some (some g, g2)) :
    ∃ inner, g = lbrace :: inner ++ [rbrace] := by
  simp only [matchReturn] at h
  cases hs : splitFirstSub l (jstr "@return") with
  | none => rw [hs] at h; cases h
  | some p =>
    rw [hs] at h
    simp only [Option.map] at h
    split at h
    · split at h
      · split at h
        · next q hq =>
          simp only [Option.some.injEq, Prod.mk.injEq] at h
          exact ⟨q.1, h.1.symm⟩
        · simp at h
      · simp at h
    · simp at h

theorem jsTrim_brace_enclosed (inner : JStr) :
    jsTrim (lbrace :: inner ++ [rbrace]) = lbrace :: inner ++ [rbrace] := by
  have h1 : dropJsSpace (lbrace :: (inner ++ [rbrace])) = lbrace :: (inner ++ [rbrace]) := by
    simp only [dropJsSpace]
    rw [if_neg (by decide)]
  have h2 : (lbrace :: (inner ++ [rbrace])).reverse = rbrace :: (inner.reverse ++ [lbrace]) := by
    simp
  have h3 : dropJsSpace (rbrace :: (inner.reverse ++ [lbrace])) =
      rbrace :: (inner.reverse ++ [lbrace]) := by
    simp only [dropJsSpace]
    rw [if_neg (by decide)]
  show jsTrim (lbrace :: (inner ++ [rbrace])) = lbrace :: (inner ++ [rbrace])
  unfold jsTrim
  rw [h1, h2, h3, ← h2, List.reverse_reverse]

theorem buildReturnLine_structural_spelling (ty : JStr) (g1 : Option JStr) (g2 : JStr)
    (hb : lbrace ∉ toLowerJs ty)
    (hshape : g1 = none ∨ ∃ inner, g1 = some (lbrace :: inner ++ [rbrace])) :
    ∃ d, buildReturnLine ty g1 g2 =
      jstr " * @return " ++ [lbrace] ++ ty ++ [rbrace] ++ d := by
  have hne : ∀ inner : JStr,
      ¬ (toLowerJs (jsTrim (lbrace :: inner ++ [rbrace])) = toLowerJs ty) := by
    intro inner heq
    rw [jsTrim_brace_enclosed] at heq
    have hmem : lbrace ∈ toLowerJs (lbrace :: inner ++ [rbrace]) := by
      have hcl : charToLower lbrace = lbrace := by decide
      simp only [toLowerJs, List.map_cons, hcl]
      exact List.mem_cons_self _ _
    rw [heq] at hmem
    exact hb hmem
  rcases hshape with rfl | ⟨inner, rfl⟩
  · refine ⟨if g2.isEmpty then []
      else jstr " " ++ paramOrReturnDescriptionHelper g2, ?_⟩
    simp only [buildReturnLine]
    by_cases hg2 : g2.isEmpty
    · simp [hg2]
    · simp [hg2, List.append_assoc]
  · refine ⟨if g2.isEmpty then []
      else jstr " " ++ paramOrReturnDescriptionHelper g2, ?_⟩
    simp only [buildReturnLine]
    rw [if_neg (hne inner)]
    by_cases hg2 : g2.isEmpty
    · simp [hg2]
    · simp [hg2, List.append_assoc]

theorem scanReturnLines_structural (ty : JStr) (hb : lbrace ∉ toLowerJs ty) :
    ∀ (n : Nat) (ls : List JStr), ls.length ≤ n → ∀ (rl : JStr),
      (∃ d, rl = jstr " * @return " ++ [lbrace] ++ ty ++ [rbrace] ++ d) →
      ∃ d, (scanReturnLines ty rl ls).1 =
        jstr " * @return " ++ [lbrace] ++ ty ++ [rbrace] ++ d := by
  intro n
  induction n with
  | zero =>
    intro ls hlen rl hP
    cases ls with
    | nil => simpa [scanReturnLines] using hP
    | cons l rest => simp at hlen
  | succ n ih =>
    intro ls hlen rl hP
    cases ls with
    | nil => simpa [scanReturnLines] using hP
    | cons l rest =>
      cases hm : matchReturn l with
      | none =>
        simp only [scanReturnLines, hm]
        exact ih rest (by simp at hlen; omega) rl hP
      | some r =>
        obtain ⟨g1, g2⟩ := r
        have hnew : ∃ d, buildReturnLine ty g1 g2 =
            jstr " * @return " ++ [lbrace] ++ ty ++ [rbrace] ++ d := by
          apply buildReturnLine_structural_spelling ty g1 g2 hb
          cases g1 with
          | none => exact Or.inl rfl
          | some g =>
            obtain ⟨inner, hi⟩ := matchReturn_g1_shape l g g2 hm
            exact Or.inr ⟨inner, by rw [hi]⟩
        cases rest with
        | nil =>
          simp only [scanReturnLines, hm]
          exact hnew
        | cons skipped rest2 =>
          simp only [scanReturnLines, hm]
          exact ih rest2 (by simp at hlen; omega) _ hnew

/-- C3 (amended): the comment's return-type capture includes the surrounding
braces, so it never case-insensitively equals a structural return type name
that contains no brace; hence the rendered return tag always begins with the
*structural* type spelling in braces (the comment's spelling is never
preserved, and the comment's type is never preferred either) — only the
trailing description is taken from the comment. -/
theorem c3_amended_structural_spelling_always
    (ty : JStr) (lines : List JStr) (hb : lbrace ∉ toLowerJs ty) :
    ∃ d, (scanReturnLines ty
        (jstr " * @return " ++ [lbrace] ++ ty ++ [rbrace]) lines).1 =
      jstr " * @return " ++ [lbrace] ++ ty ++ [rbrace] ++ d :=
  scanReturnLines_structural ty hb lines.length lines (Nat.le_refl _) _ ⟨[], by simp⟩

/-- Witness for the amended C3 at a concrete input. -/
theorem c3_amended_witness :
    (lbrace ∉ toLowerJs (jstr "integer")) ∧
    (∃ d, (scanReturnLines (jstr "integer")
        (jstr " * @return " ++ [lbrace] ++ jstr "integer" ++ [rbrace])
        [jstr " * @return {Integer} the max"]).1 =
      jstr " * @return " ++ [lbrace] ++ jstr "integer" ++ [rbrace] ++ d) :=
  ⟨by decide, c3_amended_structural_spelling_always (jstr "integer")
    [jstr " * @return {Integer} the max"] (by decide)⟩

/-- C4: the module name resolution itself follows the claim (explicit
`@module` capture, else base name with dots replaced by underscores), but the
module-declaration comment block is pushed unconditionally — here evaluated at
a source that *does* already contain the module tag, where the synthetic
module line is emitted anyway, contradicting the claim (and the code's own
comment "Add our module to the top of the file if it doesn't exist"). -/
theorem c4_module_line_emitted_despite_existing_tag :
    moduleMatchCapture (jstr "' @module foo") = some (jstr "foo") ∧
    (beforeParse [] (jstr "' @module foo") (jstr "file.bs") []).1 =
      jstr "/** @module foo */\n" ∧
    (beforeParse [] (jstr "x") (jstr "my.file.bs") []).1 =
      jstr "/** @module my_file */\n" := by
  exact ⟨by decide, by decide, by decide⟩

/-- C5: the extends-removal loop tests capture group 1 of `/@extends/`, a
regex with no capturing parentheses, so the condition never holds and a
manual inheritance tag line is never removed: a class with a structural
parent and a manual `@extends` comment line renders *two* extends tags. -/
theorem c5_manual_extends_line_never_removed :
    countSub (processClass [] (some dogComment) dogClass [] []) (jstr "@extends") = 2 ∧
    removeExtendsLine [jstr " * @extends Animal"] = [jstr " * @extends Animal"] ∧
    matchExtends (jstr " * @extends Animal") = some [some (jstr "@extends")] := by
  exact ⟨by decide, by decide, by decide⟩

/-- C6 counterexample: a *field* whose name begins with an underscore but
whose visibility is public gets a property tag and no private-access tag at
all — the underscore/private rule is applied to methods only, never to
fields. -/
theorem c6_counterexample_underscore_field_no_private_tag :
    countSub (processClass [] none underscoreFieldClass [] []) (jstr "@access private") = 0 ∧
    countSub (processClass [] none underscoreFieldClass [] []) (jstr "@property") = 1 ∧
    containsSub (processClass [] none underscoreFieldClass [] []) (jstr "_secret") = true := by
  exact ⟨by decide, by decide, by decide⟩

/-- C6 (amended): for every function or class *method*, a leading-underscore
name or a `Private` access modifier (either signal alone) puts the
private-access tag in the rendered output; and a `Private` class *field*
contributes nothing at all to the class comment (in particular no property
tag).  Fields, however, never carry a private-access tag (see the
counterexample). -/
theorem c6_amended_private_markers :
    (∀ (parserLines : List JStr) (comment : Option CommentStatement)
        (func : FunctionStatement) (moduleName namespaceName : JStr),
      (func.name.head? = some '_' ∨ func.accessModifier = some (jstr "Private")) →
      jstr " * @access private" ∈
        processFunctionLines parserLines comment func moduleName namespaceName) ∧
    (∀ (comment : Option CommentStatement) (field : ClassFieldStatement),
      field.accessModifier = some (jstr "Private") →
      processClassField comment field = []) := by
  constructor
  · intro parserLines comment func moduleName namespaceName h
    simp only [processFunctionLines, if_pos h, List.mem_append, List.mem_cons]
    tauto
  · intro comment field h
    simp only [processClassField, if_pos h]

/-- Witness for the amended C6 at concrete inputs: a `Private` class method
and a `Private` field. -/
theorem c6_amended_witness :
    ((privateMethod.name.head? = some '_' ∨
      privateMethod.accessModifier = some (jstr "Private")) ∧
     jstr " * @access private" ∈ processFunctionLines [] none privateMethod [] []) ∧
    (privateField.accessModifier = some (jstr "Private") ∧
     processClassField none privateField = []) :=
  ⟨⟨Or.inr (by decide), c6_amended_private_markers.1 [] none privateMethod [] []
      (Or.inr (by decide))⟩,
   ⟨by decide, c6_amended_private_markers.2 none privateField (by decide)⟩⟩

/-- C8 counterexample: the comment line `@param  x cool` (no type clause)
matches parameter `x` — the line is removed from the pool — but its trailing
description `cool` is *not* adopted: the description assignment is nested
inside the nonempty-type branch. -/
theorem c8_counterexample_typeless_tag_description_dropped :
    matchParam (jstr " * @param  x cool") = some (none, jstr "x", jstr "cool") ∧
    scanParamLines (jstr "x") (jstr "dynamic") [] [jstr " * @param  x cool"] =
      (jstr "dynamic", [], []) ∧
    jstr "cool" ≠ ([] : JStr) := by
  exact ⟨by decide, by decide, by decide⟩

theorem scanParamLines_no_name_match (paramName : JStr) :
    ∀ (ls : List JStr) (ty ds : JStr),
      (∀ l ∈ ls, ∀ g1 nm g4, matchParam l = some (g1, nm, g4) →
        toLowerJs (jsTrim paramName) ≠ toLowerJs (jsTrim nm)) →
      scanParamLines paramName ty ds ls = (ty, ds, ls) := by
  intro ls
  induction ls with
  | nil => intro ty ds _; rfl
  | cons l rest ih =>
    intro ty ds h
    cases hm : matchParam l with
    | none =>
      simp only [scanParamLines, hm]
      rw [ih ty ds (fun x hx => h x (by simp [hx]))]
    | some r =>
      obtain ⟨g1, nm, g4⟩ := r
      simp only [scanParamLines, hm]
      rw [if_neg (h l (by simp) g1 nm g4 hm)]
      rw [ih ty ds (fun x hx => h x (by simp [hx]))]

/-- C8 (amended): when a comment line's parameter tag matches a parameter
name case-insensitively (after trimming), the line is always removed from the
pool — so no line is ever reused by a later parameter — but the tag's type
and description are adopted *only together, and only when the tag carries a
nonempty explicit type clause*: then the trimmed type replaces the structural
type and the tag's trailing text becomes the description; a matched tag
without a type leaves both the structural type and the empty description in
place.  (Stated for a pool whose other lines do not name this parameter.) -/
theorem c8_amended_adoption_requires_type
    (paramName structType : JStr) (pre post : List JStr) (l : JStr)
    (g1 : Option JStr) (nm g4 : JStr)
    (hm : matchParam l = some (g1, nm, g4))
    (heq : toLowerJs (jsTrim paramName) = toLowerJs (jsTrim nm))
    (hpre : ∀ l2 ∈ pre, ∀ h1 n2 h4, matchParam l2 = some (h1, n2, h4) →
      toLowerJs (jsTrim paramName) ≠ toLowerJs (jsTrim n2))
    (hpost : ∀ l2 ∈ post, ∀ h1 n2 h4, matchParam l2 = some (h1, n2, h4) →
      toLowerJs (jsTrim paramName) ≠ toLowerJs (jsTrim n2)) :
    scanParamLines paramName structType [] (pre ++ l :: post) =
      ((if (g1.getD []).isEmpty then structType else jsTrim (g1.getD [])),
       (if (g1.getD []).isEmpty then [] else g4),
       pre ++ post) := by
  induction pre with
  | nil =>
    simp only [List.nil_append]
    simp only [scanParamLines, hm]
    rw [if_pos heq]
    by_cases hty : (g1.getD []).isEmpty
    · rw [if_pos hty, if_pos hty]
      simp only [hty, if_true]
      exact scanParamLines_no_name_match paramName post structType [] hpost
    · rw [if_neg hty, if_neg hty]
      simp only [hty, if_false]
      rw [scanParamLines_no_name_match paramName post (jsTrim (g1.getD []))
        (if g4.isEmpty then [] else g4) hpost]
      by_cases hg4 : g4.isEmpty
      · have : g4 = [] := by
          cases g4 with
          | nil => rfl
          | cons a b => simp at hg4
        simp [hg4, this]
      · simp [hg4]
  | cons q qs ih =>
    have hq := hpre q (by simp)
    have hqs : ∀ l2 ∈ qs, ∀ h1 n2 h4, matchParam l2 = some (h1, n2, h4) →
        toLowerJs (jsTrim paramName) ≠ toLowerJs (jsTrim n2) :=
      fun l2 hl2 => hpre l2 (by simp [hl2])
    simp only [List.cons_append]
    cases hmq : matchParam q with
    | none =>
      simp only [scanParamLines, hmq]
      rw [ih hqs]
    | some r =>
      obtain ⟨h1, n2, h4⟩ := r
      simp only [scanParamLines, hmq]
      rw [if_neg (hq h1 n2 h4 hmq)]
      rw [ih hqs]

/-- Witness for the amended C8 at a concrete input: parameter `x`, structural
type `dynamic`, a matching tag `@param {string} X - desc` behind a
non-matching pool line. -/
theorem c8_amended_witness :
    (matchParam (jstr " * @param {string} X - desc") =
      some (some (jstr "string"), jstr "X", jstr "desc") ∧
     toLowerJs (jsTrim (jstr "x")) = toLowerJs (jsTrim (jstr "X"))) ∧
    scanParamLines (jstr "x") (jstr "dynamic") []
        [jstr "/**", jstr " * @param {string} X - desc"] =
      (jstr "string", jstr "desc", [jstr "/**"]) := by
  refine ⟨⟨by decide, by decide⟩, ?_⟩
  have h := c8_amended_adoption_requires_type (jstr "x") (jstr "dynamic")
    [jstr "/**"] [] (jstr " * @param {string} X - desc")
    (some (jstr "string")) (jstr "X") (jstr "desc")
    (by decide) (by decide)
    (by intro l2 hl2 h1 n2 h4 hmq
        simp only [List.mem_singleton] at hl2
        subst hl2
        simp [show matchParam (jstr "/**") = none from by decide] at hmq)
    (by intro l2 hl2; simp at hl2)
  simpa using h

theorem processNamespace_snd (pl : List JStr) (c : Option CommentStatement)
    (a : JStr) (a1 : List BsStatement) (a2 : StmtPos) (m p : JStr) (st : List JStr) :
    (processNamespace pl c (.mk a a1 a2) m p st).2 =
      (let nn := if p.isEmpty then a else p ++ jstr "." ++ a
       let st1 := if nn ∈ st then st else st ++ [nn]
       let code := groupStatements a1
       if code.comments.isEmpty ∧ code.functions.isEmpty ∧ code.classes.isEmpty ∧
          code.namespaces.isEmpty
       then st1
       else (processNamespacesIn pl code.comments a1 m nn st1).2) := by
  simp only [processNamespace]
  repeat' split
  all_goals simp

theorem state_extends_nodup (parserLines : List JStr) :
    (∀ (comments : List CommentStatement) (statements : List BsStatement)
        (moduleName namespaceName : JStr) (st : List JStr),
      ∃ new, (processNamespacesIn parserLines comments statements
            moduleName namespaceName st).2 = st ++ new ∧
        (st.Nodup → (processNamespacesIn parserLines comments statements
            moduleName namespaceName st).2.Nodup)) ∧
    (∀ (comment : Option CommentStatement) (nstmt : NamespaceStatement)
        (moduleName parentNamespaceName : JStr) (st : List JStr),
      ∃ new, (processNamespace parserLines comment nstmt
            moduleName parentNamespaceName st).2 = st ++ new ∧
        (st.Nodup → (processNamespace parserLines comment nstmt
            moduleName parentNamespaceName st).2.Nodup)) := by
  apply processNamespacesIn.mutual_induct parserLines
  · -- processNamespace, name already created
    intro comment moduleName parentNamespaceName st a a1 a2 nn created st1 hcreated ih
    rw [processNamespace_snd]
    simp only [nn, created, st1, if_pos hcreated] at ih ⊢
    by_cases hemp : (groupStatements a1).comments.isEmpty = true ∧
        (groupStatements a1).functions.isEmpty = true ∧
        (groupStatements a1).classes.isEmpty = true ∧
        (groupStatements a1).namespaces.isEmpty = true
    · rw [if_pos hemp]
      exact ⟨[], by simp, fun h => h⟩
    · rw [if_neg hemp]
      exact ih
  · -- processNamespace, new name: record it, then recurse
    intro comment moduleName parentNamespaceName st a a1 a2 nn created st1 hnot ih
    rw [processNamespace_snd]
    simp only [nn, created, st1, if_neg hnot] at ih ⊢
    have hst1 : st.Nodup → (st ++ [if List.isEmpty parentNamespaceName = true then a
        else parentNamespaceName ++ jstr "." ++ a]).Nodup := by
      intro h
      have hnot2 : nn ∉ st := hnot
      simp only [nn] at hnot2
      simp [List.nodup_append, h]
      simpa using hnot2
    by_cases hemp : (groupStatements a1).comments.isEmpty = true ∧
        (groupStatements a1).functions.isEmpty = true ∧
        (groupStatements a1).classes.isEmpty = true ∧
        (groupStatements a1).namespaces.isEmpty = true
    · rw [if_pos hemp]
      exact ⟨_, rfl, hst1⟩
    · rw [if_neg hemp]
      obtain ⟨new, hn, hd⟩ := ih
      exact ⟨[if List.isEmpty parentNamespaceName = true then a
          else parentNamespaceName ++ jstr "." ++ a] ++ new,
        by rw [hn, List.append_assoc], fun h => hd (hst1 h)⟩
  · -- processNamespacesIn, empty list
    intro comments moduleName namespaceName st
    exact ⟨[], by simp [processNamespacesIn], fun h => by
      simpa [processNamespacesIn] using h⟩
  · -- processNamespacesIn, namespace head
    intro comments moduleName namespaceName st n rest o ih2 ih1
    obtain ⟨n1, h1, hd1⟩ := ih2
    obtain ⟨n2, h2, hd2⟩ := ih1
    refine ⟨n1 ++ n2, ?_, ?_⟩
    · simp only [processNamespacesIn]
      rw [h2, h1, List.append_assoc]
    · intro hnd
      simp only [processNamespacesIn]
      exact hd2 (hd1 hnd)
  · -- processNamespacesIn, other statement head
    intro comments moduleName namespaceName st head rest hnot ih
    cases head with
    | nsp n => exact (hnot n rfl).elim
    | comment c => simp only [processNamespacesIn]; exact ih
    | func f => simp only [processNamespacesIn]; exact ih
    | cls k => simp only [processNamespacesIn]; exact ih
    | other p => simp only [processNamespacesIn]; exact ih

/-- The qualified namespace name `processNamespace` computes (source lines
392-396): parent-qualified when nested. -/
def qualifiedNamespaceName (parentNamespaceName : JStr) (n : NamespaceStatement) : JStr :=
  if parentNamespaceName.isEmpty then n.name
  else parentNamespaceName ++ jstr "." ++ n.name

theorem processStatements_state (pl : List JStr) (sts : List BsStatement)
    (m ns : JStr) (st : List JStr) :
    ∃ new, (processStatements pl sts m ns st).2 = st ++ new ∧
      (st.Nodup → (processStatements pl sts m ns st).2.Nodup) := by
  by_cases hemp : (groupStatements sts).comments.isEmpty = true ∧
      (groupStatements sts).functions.isEmpty = true ∧
      (groupStatements sts).classes.isEmpty = true ∧
      (groupStatements sts).namespaces.isEmpty = true
  · refine ⟨[], ?_, ?_⟩ <;> simp [processStatements, hemp]
  · have h := (state_extends_nodup pl).1 (groupStatements sts).comments sts m ns st
    obtain ⟨new, hn, hd⟩ := h
    refine ⟨new, ?_, ?_⟩ <;> simp only [processStatements, if_neg hemp]
    · exact hn
    · exact hd

theorem processNamespace_already_created (pl : List JStr) (c : Option CommentStatement)
    (n : NamespaceStatement) (m p : JStr) (st : List JStr)
    (h : qualifiedNamespaceName p n ∈ st) :
    processNamespace pl c n m p st =
      processStatements pl n.body m (qualifiedNamespaceName p n) st := by
  cases n with
  | mk a a1 a2 =>
    simp only [qualifiedNamespaceName, NamespaceStatement.name, NamespaceStatement.body] at h ⊢
    simp only [processNamespace, processStatements]
    rw [if_pos h, if_pos h]
    by_cases hemp : (groupStatements a1).comments.isEmpty = true ∧
        (groupStatements a1).functions.isEmpty = true ∧
        (groupStatements a1).classes.isEmpty = true ∧
        (groupStatements a1).namespaces.isEmpty = true
    · simp [hemp, joinNl, joinSep]
    · simp [hemp, joinNl, joinSep]

theorem processNamespace_creates (pl : List JStr) (c : Option CommentStatement)
    (n : NamespaceStatement) (m p : JStr) (st : List JStr)
    (h : qualifiedNamespaceName p n ∉ st) :
    (processNamespace pl c n m p st).1 =
      joinNl [joinNl (convertCommentTextToJsDocLines c ++ [getMemberOf m p] ++
          [jstr " * @namespace " ++ qualifiedNamespaceName p n ++ jstr " "] ++ [jstr " */"]),
        (if p.isEmpty then jstr "var " ++ qualifiedNamespaceName p n ++ jstr " = \x7b\x7d; "
         else p ++ jstr ".namespaceName = \x7b\x7d"),
        (processStatements pl n.body m (qualifiedNamespaceName p n)
          (st ++ [qualifiedNamespaceName p n])).1] ∧
    (processNamespace pl c n m p st).2 =
      (processStatements pl n.body m (qualifiedNamespaceName p n)
        (st ++ [qualifiedNamespaceName p n])).2 ∧
    qualifiedNamespaceName p n ∈ (processNamespace pl c n m p st).2 := by
  have hmain : (processNamespace pl c n m p st).1 =
      joinNl [joinNl (convertCommentTextToJsDocLines c ++ [getMemberOf m p] ++
          [jstr " * @namespace " ++ qualifiedNamespaceName p n ++ jstr " "] ++ [jstr " */"]),
        (if p.isEmpty then jstr "var " ++ qualifiedNamespaceName p n ++ jstr " = \x7b\x7d; "
         else p ++ jstr ".namespaceName = \x7b\x7d"),
        (processStatements pl n.body m (qualifiedNamespaceName p n)
          (st ++ [qualifiedNamespaceName p n])).1] ∧
      (processNamespace pl c n m p st).2 =
        (processStatements pl n.body m (qualifiedNamespaceName p n)
          (st ++ [qualifiedNamespaceName p n])).2 := by
    cases n with
    | mk a a1 a2 =>
      simp only [qualifiedNamespaceName, NamespaceStatement.name,
        NamespaceStatement.body] at h ⊢
      simp only [processNamespace, processStatements]
      rw [if_neg h, if_neg h]
      by_cases hemp : (groupStatements a1).comments.isEmpty = true ∧
          (groupStatements a1).functions.isEmpty = true ∧
          (groupStatements a1).classes.isEmpty = true ∧
          (groupStatements a1).namespaces.isEmpty = true
      · simp [hemp, joinNl, joinSep]
      · simp [hemp, joinNl, joinSep]
  refine ⟨hmain.1, hmain.2, ?_⟩
  rw [hmain.2]
  obtain ⟨new, hn, _⟩ := processStatements_state pl n.body m
    (qualifiedNamespaceName p n) (st ++ [qualifiedNamespaceName p n])
  rw [hn]
  simp

/-- C9 (amended): within one processing run the created-set guards creation —
a namespace statement whose qualified path is already recorded emits no
container-creation output (it reduces to its body's processing), a fresh path
emits exactly one creation block and is recorded in the set before the body
recursion, and the set only ever grows (each call appends, and it stays
duplicate-free).  The second half of the original claim is false: the set is
a module-global initialized once per process load — `beforeParse` threads it
through without resetting — so it is *not* freshly initialized per file and
*is* read by later files (see the counterexample). -/
theorem c9_amended_created_set_guards_and_grows :
    (∀ (pl : List JStr) (c : Option CommentStatement) (n : NamespaceStatement)
        (m p : JStr) (st : List JStr),
      qualifiedNamespaceName p n ∈ st →
      processNamespace pl c n m p st =
        processStatements pl n.body m (qualifiedNamespaceName p n) st) ∧
    (∀ (pl : List JStr) (c : Option CommentStatement) (n : NamespaceStatement)
        (m p : JStr) (st : List JStr),
      qualifiedNamespaceName p n ∉ st →
      (processNamespace pl c n m p st).1 =
        joinNl [joinNl (convertCommentTextToJsDocLines c ++ [getMemberOf m p] ++
            [jstr " * @namespace " ++ qualifiedNamespaceName p n ++ jstr " "] ++ [jstr " */"]),
          (if p.isEmpty then jstr "var " ++ qualifiedNamespaceName p n ++ jstr " = \x7b\x7d; "
           else p ++ jstr ".namespaceName = \x7b\x7d"),
          (processStatements pl n.body m (qualifiedNamespaceName p n)
            (st ++ [qualifiedNamespaceName p n])).1] ∧
      qualifiedNamespaceName p n ∈ (processNamespace pl c n m p st).2) ∧
    (∀ (pl : List JStr) (sts : List BsStatement) (m ns : JStr) (st : List JStr),
      ∃ new, (processStatements pl sts m ns st).2 = st ++ new ∧
        (st.Nodup → (processStatements pl sts m ns st).2.Nodup)) :=
  ⟨processNamespace_already_created,
   fun pl c n m p st h =>
     ⟨(processNamespace_creates pl c n m p st h).1,
      (processNamespace_creates pl c n m p st h).2.2⟩,
   processStatements_state⟩

/-- Witness for the amended C9 at concrete inputs. -/
theorem c9_amended_witness :
    (qualifiedNamespaceName [] alphaNamespace ∈ [jstr "alpha"] ∧
     processNamespace [] none alphaNamespace (jstr "m") [] [jstr "alpha"] =
       processStatements [] alphaNamespace.body (jstr "m")
         (qualifiedNamespaceName [] alphaNamespace) [jstr "alpha"]) ∧
    (qualifiedNamespaceName [] alphaNamespace ∉ ([] : List JStr) ∧
     qualifiedNamespaceName [] alphaNamespace ∈
       (processNamespace [] none alphaNamespace (jstr "m") [] []).2) :=
  ⟨⟨by decide, c9_amended_created_set_guards_and_grows.1 [] none alphaNamespace
      (jstr "m") [] [jstr "alpha"] (by decide)⟩,
   ⟨by decide, (c9_amended_created_set_guards_and_grows.2.1 [] none alphaNamespace
      (jstr "m") [] [] (by decide)).2⟩⟩

/-- C9 counterexample: the created-set is *not* freshly initialized per file:
processing the same statements twice, with the state the first run left (as
the module-global persists across `beforeParse` calls), yields a second
output with no container-creation line at all, different from the first. -/
theorem c9_counterexample_state_persists_across_files :
    countSub (beforeParse [.nsp alphaNamespace] (jstr "namespace alpha")
        (jstr "a.bs") []).1 (jstr "var alpha = ") = 1 ∧
    (beforeParse [.nsp alphaNamespace] (jstr "namespace alpha")
        (jstr "a.bs") []).2 = [jstr "alpha"] ∧
    countSub (beforeParse [.nsp alphaNamespace] (jstr "namespace alpha")
        (jstr "a.bs") [jstr "alpha"]).1 (jstr "var alpha = ") = 0 ∧
    (beforeParse [.nsp alphaNamespace] (jstr "namespace alpha")
        (jstr "a.bs") [jstr "alpha"]).1 ≠
      (beforeParse [.nsp alphaNamespace] (jstr "namespace alpha")
        (jstr "a.bs") []).1 := by
  exact ⟨by decide, by decide, by decide, by decide⟩

/-- Witness for C7 at a concrete input: the locator rule applied forward. -/
theorem c7_locator_witness :
    getCommentForStatement [sharedComment] fnAt6.pos = some sharedComment :=
  (c7_comment_locator_rule.1 [sharedComment] fnAt6.pos sharedComment).mpr
    ⟨[], [], rfl, by decide, by simp⟩
